import Mathlib

/-!
The SQLite extension `xlsx_vtab.c`, as a shallow embedding.

The extension loads one worksheet of an xlsx archive into a private in-memory
database (table `value(worksheet_id, col, row, val)`), derives the declared
columns of the virtual table with one SQL query, and serves a forward scan
through the cursor methods `xlsxFilter`, `xlsxNext`, `xlsxEof`, `xlsxColumn`
and `xlsxRowid`.

The embedding follows the C functions and the SQL text of `xlsxConnect`:

* SQL values are `SqlValue` (NULL, INTEGER, TEXT); a nullable TEXT column is an
  `Option String`.
* The table `value` restricted to the worksheet that was asked for is a
  `List ValueRow`.
* The prepared statement `pStmt` of the table object is represented by its two
  rebindable parameters (`bind2` for `row = ?2`, `bind3` for `col = ?3`).
* The column number `int i` is a `Nat`.  The rowid `sqlite3_int64` is an `Int`
  kept within 64 bits: the increment of `xlsxNext` wraps around past
  `2^63 - 1`.
* The conversion of a text to a number is SQLite library code; the two places
  where the SQL text relies on it are taken as a parameter (`NumericText`).
* The recursive common table expression may run forever; it is modelled with a
  step budget and reports whether it finished.
-/

namespace XlsxVtab

/-! ## SQL values and scalar functions -/

/-- An SQLite value of one of the storage classes that occur in the extension. -/
inductive SqlValue where
  | null
  | integer (n : Int)
  | text (s : String)
  deriving DecidableEq, Repr

/-- SQL comparison `a = b` used in a WHERE or ON clause: true only when both
sides are non-NULL and equal. -/
def sqlEq : SqlValue → SqlValue → Bool
  | .null, _ => false
  | _, .null => false
  | a, b => decide (a = b)

/-- SQL scalar function `Trim(X, Y)`: removes from both ends of `X` every
character that occurs in `Y`. -/
def sqlTrim (x y : String) : String :=
  String.mk
    (((x.toList.dropWhile fun c => y.toList.contains c).reverse.dropWhile
      fun c => y.toList.contains c).reverse)

/-- Value of a string of decimal digits. -/
def digitsValue (s : List Char) : Nat :=
  s.foldl (fun n c => 10 * n + (c.toNat - 48)) 0

/-- A non-empty text made of decimal digits only. -/
def isDigitText (s : String) : Bool :=
  !s.toList.isEmpty && s.toList.all fun c => "0123456789".toList.contains c

/-- The two places where the SQL text relies on SQLite's conversion of a text
to a number, which is library code and is taken as a parameter: `store s` is
the value kept when the text `s` is stored into the column `row` of INT
affinity, and `eqInt s n` is the outcome of the comparison `v.value = ss.id`
for the text `s` and a column of INT affinity holding the integer `n`. -/
structure NumericText where
  store : String → SqlValue
  eqInt : String → Int → Bool

/-- What is assumed of SQLite when it stores a text into the column `row`: a
text of decimal digits whose number is below `2^63` is stored as that
integer. -/
def NumericText.StoresDigits (S : NumericText) : Prop :=
  ∀ s, isDigitText s = true → digitsValue s.toList < 2 ^ 63 →
    S.store s = .integer (digitsValue s.toList)

/-- What is assumed of SQLite when it compares a text with an integer id: a
text of decimal digits whose number is below `2^63` equals that integer only,
and no text equals two different integers. -/
def NumericText.ComparesDigits (S : NumericText) : Prop :=
  (∀ s n, isDigitText s = true → digitsValue s.toList < 2 ^ 63 →
    (S.eqInt s n = true ↔ n = digitsValue s.toList)) ∧
  (∀ s n m, S.eqInt s n = true → S.eqInt s m = true → n = m)

/-- Both assumptions on SQLite's conversion of a text to a number. -/
def NumericText.Lawful (S : NumericText) : Prop :=
  S.StoresDigits ∧ S.ComparesDigits

/-- A conversion that reads texts of decimal digits below `2^63` and treats
every other text as not numeric; it serves to evaluate the examples, whose
texts are all of that kind. -/
def digitNumeric : NumericText :=
  { store := fun s =>
      if isDigitText s && decide (digitsValue s.toList < 2 ^ 63) then
        .integer (digitsValue s.toList)
      else
        .text s
    eqInt := fun s n =>
      isDigitText s && decide (digitsValue s.toList < 2 ^ 63) &&
        decide (n = (digitsValue s.toList : Int)) }

/-! ## Building the table `value` -/

/-- One cell object of the parsed worksheet, as its rows of `worksheet_tree`
sharing one `path`: the keys `@r`, `v` and `@t`. -/
structure CellNode where
  r : String
  v : Option String
  t : Option String
  deriving DecidableEq, Repr

/-- A row of table `shared_string` of the workbook. -/
structure SharedString where
  id : Int
  val : Option String
  deriving DecidableEq, Repr

/-- A row of table `value` of the worksheet. -/
structure ValueRow where
  col : String
  row : SqlValue
  val : Option String
  deriving DecidableEq, Repr

/-- The result column `Trim(r.value, '0123456789') col`. -/
def refCol (ref : String) : String :=
  sqlTrim ref "0123456789"

/-- The result column `Trim(r.value, 'ABCDEFGHIJKLMNOPQRSTUVWXYZ') row` of the
SELECT, a text. -/
def refRowText (ref : String) : String :=
  sqlTrim ref "ABCDEFGHIJKLMNOPQRSTUVWXYZ"

/-- The value kept in the INT column `row` for a reference. -/
def refRow (S : NumericText) (ref : String) : SqlValue :=
  S.store (refRowText ref)

/-- The rows of `shared_string` that the LEFT JOIN `v.value = ss.id` matches. -/
def sharedMatches (S : NumericText) (ss : List SharedString) (raw : String) :
    List SharedString :=
  ss.filter fun e => S.eqInt raw e.id

/-- The rows that the SELECT feeding `INSERT INTO value` produces for one cell
object: none when the object has no `v` key (inner join), otherwise one per
matching shared string, or a single one with `ss.val` NULL when none matches
(left join).  `t.key IS NULL` holds unless the object has `@t = 's'`. -/
def selectCell (S : NumericText) (ss : List SharedString) (c : CellNode) : List ValueRow :=
  match c.v with
  | none => []
  | some raw =>
    match sharedMatches S ss raw with
    | [] => [⟨refCol c.r, refRow S c.r, if c.t = some "s" then none else some raw⟩]
    | ms => ms.map fun e =>
        ⟨refCol c.r, refRow S c.r, if c.t = some "s" then e.val else some raw⟩

/-- All rows of the SELECT feeding `INSERT INTO value`. -/
def selectValueRows (S : NumericText) (cells : List CellNode) (ss : List SharedString) :
    List ValueRow :=
  cells.flatMap (selectCell S ss)

/-- The PRIMARY KEY `(worksheet_id, row, col)` holds for the rows. -/
def pkUnique (rows : List ValueRow) : Bool :=
  decide (rows.map fun v => (v.row, v.col)).Nodup

/-- Statement `INSERT INTO value SELECT ...` for the worksheets of the workbook,
each given by its cell objects: the rows of table `value` of each worksheet.
A primary-key conflict within any worksheet aborts the statement and leaves
the table empty for all of them (the result code of `sqlite3_exec` is not
looked at). -/
def buildValue (S : NumericText) (sheets : List (List CellNode)) (ss : List SharedString) :
    List (List ValueRow) :=
  if sheets.all fun cells => pkUnique (selectValueRows S cells ss) then
    sheets.map fun cells => selectValueRows S cells ss
  else
    sheets.map fun _ => []

/-! ## Column letters -/

/-- The array `zCol` that `xlsxColumn` fills after its `i--`. -/
def zCol (i : Nat) : String :=
  if i / 26 = 0 then
    String.mk [Char.ofNat (i % 26 + 64 + 1)]
  else if i / 676 = 0 then
    String.mk [Char.ofNat (i % 676 / 26 + 64), Char.ofNat (i % 26 + 64 + 1)]
  else
    String.mk [Char.ofNat (i % 17576 / 676 + 64), Char.ofNat (i % 676 / 26 + 64 + 1),
      Char.ofNat (i % 26 + 64 + 1)]

/-- The CASE expression of the recursive step of the schema query, on the `i`
of the previous row. -/
def cteCol (i : Nat) : String :=
  if 0 = i / 26 then
    String.mk [Char.ofNat (i % 26 + 64 + 1)]
  else if 0 = i / 676 then
    String.mk [Char.ofNat (i % 676 / 26 + 64), Char.ofNat (i % 26 + 64 + 1)]
  else
    String.mk [Char.ofNat (i % 17576 / 676 + 64), Char.ofNat (i % 676 / 26 + 64 + 1),
      Char.ofNat (i % 26 + 64 + 1)]

/-- Spreadsheet reading of column letters, in the words of the specification:
A=1 … Z=26, most significant letter first, minus one. -/
def parseColumnLetter (s : String) : Nat :=
  s.toList.foldl (fun n c => 26 * n + (c.toNat - 64)) 0 - 1

/-- Letters of the bijective base-26 numeral of `n` (1 is A, 26 is Z, 27 is AA),
prepended to `acc`. -/
def bijectiveDigits : Nat → Nat → List Char → List Char
  | 0, _, acc => acc
  | fuel + 1, n, acc =>
    if n = 0 then acc
    else bijectiveDigits fuel ((n - 1) / 26) (Char.ofNat ((n - 1) % 26 + 65) :: acc)

/-- Spreadsheet name of the column with zero-based index `i`, in the words of
the specification (bijective base 26: A, …, Z, AA, …). -/
def columnLetterOf (i : Nat) : String :=
  String.mk (bijectiveDigits (i + 1) (i + 1) [])

/-! ## Schema discovery -/

/-- The first ORDER BY term of the maximum-column subquery. -/
def lengthClass (col : String) : String :=
  match col.length with
  | 1 => "@"
  | 2 => "@@"
  | _ => "@@@"

/-- Text comparison of the BINARY collation: `a` is less than `b`. -/
def textLt (a b : String) : Prop :=
  a.toList < b.toList

instance (a b : String) : Decidable (textLt a b) :=
  inferInstanceAs (Decidable (a.toList < b.toList))

/-- Row with column `a` sorts no later than the row with column `b` under
`ORDER BY CASE Length(col) ... END DESC, col DESC`. -/
def orderBefore (a b : String) : Bool :=
  decide (textLt (lengthClass b) (lengthClass a)) ||
    (decide (lengthClass a = lengthClass b) && !decide (textLt a b))

/-- Insertion of one column into a list sorted by `orderBefore`. -/
def orderInsert (a : String) : List String → List String
  | [] => [a]
  | b :: bs => if orderBefore a b then a :: b :: bs else b :: orderInsert a bs

/-- The `col` values sorted by the ORDER BY clause of the subquery. -/
def orderByDesc (cols : List String) : List String :=
  cols.foldr orderInsert []

/-- The scalar subquery `SELECT col ... ORDER BY ... LIMIT 1`; `none` is NULL
(no row). -/
def maxColumn (value : List ValueRow) : Option String :=
  (orderByDesc (value.map fun v => v.col)).head?

/-- The WHERE clause `col <> (subquery)` of the recursive step. -/
def sqlNe (col : String) : Option String → Bool
  | none => false
  | some m => decide (col ≠ m)

/-- Rows of the recursive table `i(i, col)` produced from the row `r` on, within
a budget of steps, and whether the recursion came to its end. -/
def cteRun (maxCol : Option String) : Nat → Nat × String → List (Nat × String) × Bool
  | 0, _ => ([], false)
  | fuel + 1, r =>
    if sqlNe r.2 maxCol then
      (r :: (cteRun maxCol fuel (r.1 + 1, cteCol r.1)).1,
        (cteRun maxCol fuel (r.1 + 1, cteCol r.1)).2)
    else
      ([r], true)

/-- The recursive table `i`, seeded with `SELECT 1, 'A'`; `none` when the
recursion has not ended within the budget. -/
def cteRows (maxCol : Option String) (fuel : Nat) : Option (List (Nat × String)) :=
  if (cteRun maxCol fuel (1, "A")).2 then some (cteRun maxCol fuel (1, "A")).1 else none

/-- The rows of `value` that the LEFT JOIN of the outer query matches for one
row of `i`: `i.col = v.col AND v.row = header_row`. -/
def headerMatches (value : List ValueRow) (header_row : Int) (col : String) :
    List ValueRow :=
  value.filter fun v => decide (col = v.col) && sqlEq v.row (.integer header_row)

/-- The values `IfNull(v.val, i.col)` that one row of `i` contributes. -/
def namesOf (value : List ValueRow) (header_row : Int) (col : String) : List String :=
  match headerMatches value header_row col with
  | [] => [col]
  | ms => ms.map fun v => v.val.getD col

/-- The column names, in the order in which the recursion produced the rows of
`i` (the order in which `group_concat` receives them). -/
def columnNames (value : List ValueRow) (header_row : Int)
    (rows : List (Nat × String)) : List String :=
  rows.flatMap fun r => namesOf value header_row r.2

/-- The aggregate `group_concat('[' || IfNull(v.val, i.col) || ']')`. -/
def groupConcatCols (names : List String) : String :=
  ",".intercalate (names.map fun n => "[" ++ n ++ "]")

/-- Order of two non-NULL values of the column `row`: INTEGER sorts before TEXT. -/
def sqlLt : SqlValue → SqlValue → Bool
  | .integer a, .integer b => decide (a < b)
  | .integer _, .text _ => true
  | .text a, .text b => decide (textLt a b)
  | _, _ => false

/-- The aggregate `Max(row)`: NULL for no rows, NULL values are skipped. -/
def sqlMaxRow (value : List ValueRow) : SqlValue :=
  value.foldl
    (fun acc v =>
      if v.row = .null then acc
      else if acc = .null then v.row
      else if sqlLt acc v.row then v.row else acc)
    .null

/-- The call `sqlite3_column_int64`: NULL reads as 0, a text as the integer
it starts with (0 when it starts with none, the greatest 64-bit value when the
digits exceed it). -/
def column_int64 : SqlValue → Int
  | .null => 0
  | .integer n => n
  | .text s =>
    min (digitsValue (s.toList.takeWhile fun c => "0123456789".toList.contains c))
      (2 ^ 63 - 1)

/-! ## The virtual table and its cursors -/

/-- The table object: the private database (table `value` of the worksheet),
the parameters `?2` and `?3` of the prepared lookup statement, and the last
rowid. -/
structure xlsx_vtab where
  value : List ValueRow
  bind2 : SqlValue
  bind3 : SqlValue
  iMaxRowid : Int
  deriving DecidableEq, Repr

/-- A cursor: its rowid. -/
structure xlsx_cursor where
  iRowid : Int
  deriving DecidableEq, Repr

/-- Result code of a successful call. -/
def SQLITE_OK : Int := 0

/-- Outcome of the schema part of `xlsxConnect` for a worksheet that exists:
the text of `cols`, the names it lists, and the table object. -/
structure Connected where
  cols : String
  names : List String
  tab : xlsx_vtab
  deriving DecidableEq, Repr

/-- Function `xlsxConnect` from the schema query on, for a worksheet that
exists in the workbook and whose rows of `value` are given: runs the schema
query, takes `cols` and `Max(row)` from its single result row, and prepares the
lookup statement with no row and no column bound yet.  `none` when the
recursion of the query has not ended within the budget. -/
def xlsxConnect (fuel : Nat) (value : List ValueRow) (header_row : Int) :
    Option Connected :=
  match cteRows (maxColumn value) fuel with
  | none => none
  | some rows =>
    some
      { cols := groupConcatCols (columnNames value header_row rows)
        names := columnNames value header_row rows
        tab :=
          { value := value
            bind2 := .null
            bind3 := .null
            iMaxRowid := column_int64 (sqlMaxRow value) } }

/-- Function `xlsxOpen`: a new cursor, zero-filled. -/
def xlsxOpen : xlsx_cursor :=
  { iRowid := 0 }

/-- A 64-bit signed integer after an arithmetic step: the result taken modulo
`2^64` into the range from `-2^63` to `2^63 - 1`. -/
def wrap64 (n : Int) : Int :=
  (n + 2 ^ 63) % 2 ^ 64 - 2 ^ 63

/-- Function `xlsxNext`: increments the rowid of the cursor and binds it to
parameter 2 of the statement of the table.  The rowid is a `sqlite3_int64`;
the increment past `2^63 - 1`, which C leaves undefined, is taken to wrap
around. -/
def xlsxNext (tab : xlsx_vtab) (cur : xlsx_cursor) : xlsx_vtab × xlsx_cursor :=
  ({ tab with bind2 := .integer (wrap64 (cur.iRowid + 1)) },
    { iRowid := wrap64 (cur.iRowid + 1) })

/-- Function `xlsxFilter`: sets the rowid to 0 and calls `xlsxNext`. -/
def xlsxFilter (tab : xlsx_vtab) (cur : xlsx_cursor) : xlsx_vtab × xlsx_cursor :=
  xlsxNext tab { cur with iRowid := 0 }

/-- Function `xlsxEof`. -/
def xlsxEof (tab : xlsx_vtab) (cur : xlsx_cursor) : Bool :=
  decide (cur.iRowid > tab.iMaxRowid)

/-- Function `xlsxRowid`. -/
def xlsxRowid (cur : xlsx_cursor) : Int :=
  cur.iRowid

/-- One step of the lookup statement
`SELECT val FROM value WHERE worksheet_id = ?1 AND row = ?2 AND col = ?3`:
the first matching row, if any. -/
def stepLookup (tab : xlsx_vtab) : Option ValueRow :=
  tab.value.find? fun v => sqlEq v.row tab.bind2 && sqlEq (.text v.col) tab.bind3

/-- A nullable text as an SQL value. -/
def ofVal : Option String → SqlValue
  | none => .null
  | some s => .text s

/-- What a call of `xlsxColumn` leaves behind: its return code, the value handed
to the SQL context, the table object and the cursor. -/
structure ColumnResult where
  rc : Int
  result : SqlValue
  tab : xlsx_vtab
  cur : xlsx_cursor
  deriving DecidableEq, Repr

/-- Function `xlsxColumn` for the column number `i` (never negative). -/
def xlsxColumn (tab : xlsx_vtab) (cur : xlsx_cursor) (i : Nat) : ColumnResult :=
  if i = 0 then
    { rc := SQLITE_OK, result := .integer cur.iRowid, tab := tab, cur := cur }
  else
    { rc := SQLITE_OK
      result :=
        match stepLookup { tab with bind3 := .text (zCol (i - 1)) } with
        | some v => ofVal v.val
        | none => .null
      tab := { tab with bind3 := .text (zCol (i - 1)) }
      cur := cur }

/-! ## Drivers -/

/-- The loop of a scan after `xlsxFilter`: while `xlsxEof` is false, report
`xlsxRowid` and call `xlsxNext`.  `none` when the budget of steps runs out. -/
def scanLoop : Nat → xlsx_vtab → xlsx_cursor → Option (List Int)
  | 0, _, _ => none
  | fuel + 1, tab, cur =>
    if xlsxEof tab cur then some []
    else (scanLoop fuel (xlsxNext tab cur).1 (xlsxNext tab cur).2).map fun l =>
      xlsxRowid cur :: l

/-- A full scan: `xlsxFilter`, then the loop. -/
def fullScan (fuel : Nat) (tab : xlsx_vtab) (cur : xlsx_cursor) : Option (List Int) :=
  scanLoop fuel (xlsxFilter tab cur).1 (xlsxFilter tab cur).2

/-- A positioning call on a cursor. -/
inductive Move where
  | filter
  | next
  deriving DecidableEq, Repr

/-- One positioning call on a single cursor. -/
def move (s : xlsx_vtab × xlsx_cursor) : Move → xlsx_vtab × xlsx_cursor
  | .filter => xlsxFilter s.1 s.2
  | .next => xlsxNext s.1 s.2

/-- A sequence of positioning calls on a single cursor. -/
def moves (s : xlsx_vtab × xlsx_cursor) (ms : List Move) : xlsx_vtab × xlsx_cursor :=
  ms.foldl move s

/-- Two cursors open on one table object. -/
structure TwoCursors where
  tab : xlsx_vtab
  a : xlsx_cursor
  b : xlsx_cursor
  deriving DecidableEq, Repr

/-- A positioning call on the first or the second of two cursors. -/
inductive Move2 where
  | filterA
  | nextA
  | filterB
  | nextB
  deriving DecidableEq, Repr

/-- One positioning call on one of two cursors of the same table. -/
def move2 (s : TwoCursors) : Move2 → TwoCursors
  | .filterA => { s with tab := (xlsxFilter s.tab s.a).1, a := (xlsxFilter s.tab s.a).2 }
  | .nextA => { s with tab := (xlsxNext s.tab s.a).1, a := (xlsxNext s.tab s.a).2 }
  | .filterB => { s with tab := (xlsxFilter s.tab s.b).1, b := (xlsxFilter s.tab s.b).2 }
  | .nextB => { s with tab := (xlsxNext s.tab s.b).1, b := (xlsxNext s.tab s.b).2 }

/-- An interleaving of positioning calls on two cursors. -/
def moves2 (s : TwoCursors) (ms : List Move2) : TwoCursors :=
  ms.foldl move2 s

/-- The value of the cell at a row and a column in table `value`, NULL when
there is none. -/
def cellAt (value : List ValueRow) (row : Int) (col : String) : SqlValue :=
  match value.find? fun v => decide (v.row = .integer row) && decide (v.col = col) with
  | some v => ofVal v.val
  | none => .null

/-- The worksheet of the examples: A1 = Name, B1 = Age, A2 = Ann, B2 = 30. -/
def sampleValue : List ValueRow :=
  [⟨"A", .integer 1, some "Name"⟩, ⟨"B", .integer 1, some "Age"⟩,
   ⟨"A", .integer 2, some "Ann"⟩, ⟨"B", .integer 2, some "30"⟩]

/-- The table object that `xlsxConnect` builds for the sample worksheet. -/
def sampleTab : xlsx_vtab :=
  { value := sampleValue, bind2 := .null, bind3 := .null, iMaxRowid := 2 }

/-- The capital letters, the second argument of the `Trim` giving `row`. -/
def upperSet : List Char :=
  "ABCDEFGHIJKLMNOPQRSTUVWXYZ".toList

/-- The decimal digits, the second argument of the `Trim` giving `col`. -/
def digitSet : List Char :=
  "0123456789".toList

/-- The shared strings of the examples: 0 is Red, 1 is Blue. -/
def sampleShared : List SharedString :=
  [⟨0, some "Red"⟩, ⟨1, some "Blue"⟩]

/-- Two cursors opened on the table of the sample worksheet, each positioned
by its own `xlsxFilter`. -/
def twoOnRowOne : TwoCursors :=
  moves2 ⟨sampleTab, xlsxOpen, xlsxOpen⟩ [.filterA, .filterB]

/-- A worksheet with two cells in row 1, in the columns ZA and AAA. -/
def wideValue : List ValueRow :=
  [⟨"ZA", .integer 1, some "x"⟩, ⟨"AAA", .integer 1, some "y"⟩]

/-- The table object that `xlsxConnect` builds for `wideValue`. -/
def wideTab : xlsx_vtab :=
  { value := wideValue, bind2 := .null, bind3 := .null, iMaxRowid := 1 }

/-- The value `IfNull(v.val, i.col)` of the schema query for a column that at
most one header cell matches: the text of the cell at the header row and the
column when that cell has a text (empty or not), otherwise the letters. -/
def headerName (value : List ValueRow) (header_row : Int) (col : String) : String :=
  match cellAt value header_row col with
  | .text s => s
  | _ => col

/-- A worksheet whose only cell is in row `2^63 - 1`. -/
def lastRowValue : List ValueRow :=
  [⟨"A", .integer (2 ^ 63 - 1), some "x"⟩]

/-- The table object that `xlsxConnect` builds for `lastRowValue`. -/
def lastRowTab : xlsx_vtab :=
  { value := lastRowValue, bind2 := .null, bind3 := .null, iMaxRowid := 2 ^ 63 - 1 }

/-! ## Column letters of the schema query and of `xlsxColumn` -/

theorem cteCol_eq_zCol (i : Nat) : cteCol i = zCol i := by
  unfold cteCol zCol
  simp only [eq_comm]

/-! ## Values -/

theorem sqlEq_integer_iff (a : SqlValue) (n : Int) :
    sqlEq a (.integer n) = true ↔ a = .integer n := by
  cases a <;> simp [sqlEq]

theorem wrap64_id (n : Int) (h1 : -2 ^ 63 ≤ n) (h2 : n < 2 ^ 63) : wrap64 n = n := by
  unfold wrap64
  omega

theorem wrap64_range (n : Int) : -2 ^ 63 ≤ wrap64 n ∧ wrap64 n < 2 ^ 63 := by
  unfold wrap64
  omega

theorem wrap64_one : wrap64 1 = 1 := by decide

theorem digitNumeric_lawful : digitNumeric.Lawful := by
  refine ⟨?_, ?_, ?_⟩
  · intro s h1 h2
    simp only [digitNumeric, h1, decide_eq_true h2, Bool.and_self, if_true]
  · intro s n h1 h2
    simp only [digitNumeric, h1, decide_eq_true h2, Bool.and_self, Bool.true_and,
      decide_eq_true_eq]
  · intro s n m h1 h2
    simp only [digitNumeric, Bool.and_eq_true, decide_eq_true_eq] at h1 h2
    rw [h1.2, h2.2]

/-! ## The scan -/

theorem scanLoop_rows (N : Int) (hN : N < 2 ^ 63 - 1) (d : Nat) :
    ∀ (fuel : Nat) (tab : xlsx_vtab) (cur : xlsx_cursor),
      tab.iMaxRowid = N → -2 ^ 63 ≤ cur.iRowid → (N + 1 - cur.iRowid).toNat = d → d < fuel →
      scanLoop fuel tab cur =
        some ((List.range d).map fun (j : Nat) => cur.iRowid + (j : Int)) := by
  induction d with
  | zero =>
    intro fuel tab cur hM _ hd hf
    obtain ⟨f, rfl⟩ : ∃ f, fuel = f + 1 := ⟨fuel - 1, by omega⟩
    have : xlsxEof tab cur = true := by
      simp only [xlsxEof, decide_eq_true_eq]
      omega
    simp [scanLoop, this]
  | succ d ih =>
    intro fuel tab cur hM hlo hd hf
    obtain ⟨f, rfl⟩ : ∃ f, fuel = f + 1 := ⟨fuel - 1, by omega⟩
    have hE : xlsxEof tab cur = false := by
      simp only [xlsxEof, decide_eq_false_iff_not]
      omega
    have hw : wrap64 (cur.iRowid + 1) = cur.iRowid + 1 :=
      wrap64_id _ (by omega) (by omega)
    have hnext : (xlsxNext tab cur).2.iRowid = cur.iRowid + 1 := by
      simp only [xlsxNext, hw]
    have h' := ih f (xlsxNext tab cur).1 (xlsxNext tab cur).2 (by simpa [xlsxNext] using hM)
      (by rw [hnext]; omega) (by rw [hnext]; omega) (by omega)
    simp only [scanLoop, hE, h', Option.map_some', xlsxRowid, Bool.false_eq_true, if_false]
    rw [List.range_succ_eq_map, hnext]
    simp only [List.map_cons, List.map_map]
    congr 1
    simp only [Nat.cast_zero, add_zero, List.cons.injEq, true_and]
    apply List.map_congr_left
    intro j _
    simp only [Function.comp, Nat.succ_eq_add_one, Nat.cast_add, Nat.cast_one]
    omega

theorem scanLoop_never_ends :
    ∀ (fuel : Nat) (tab : xlsx_vtab) (cur : xlsx_cursor),
      tab.iMaxRowid = 2 ^ 63 - 1 → cur.iRowid < 2 ^ 63 → scanLoop fuel tab cur = none := by
  intro fuel
  induction fuel with
  | zero => intro tab cur _ _; rfl
  | succ f ih =>
    intro tab cur hM hr
    have hE : xlsxEof tab cur = false := by
      simp only [xlsxEof, decide_eq_false_iff_not]
      omega
    have h' := ih (xlsxNext tab cur).1 (xlsxNext tab cur).2 (by simpa [xlsxNext] using hM)
      (by simp only [xlsxNext]; exact (wrap64_range _).2)
    simp only [scanLoop, hE, h', Option.map_none', Bool.false_eq_true, if_false]

/-- With `iMaxRowid = 2^63 - 1` no scan ever comes to its end: `xlsxEof` is
false on every 64-bit row. -/
theorem scan_never_ends_at_last_row (fuel : Nat) (cur : xlsx_cursor) :
    fullScan fuel lastRowTab cur = none :=
  scanLoop_never_ends fuel _ _ rfl (by simp only [xlsxFilter, xlsxNext]; exact (wrap64_range _).2)

/-- C2 (amended). For a table with `iMaxRowid = N`, `0 ≤ N < 2^63 - 1`, and
any cursor, whatever its position: `xlsxFilter` puts the cursor on row 1,
`xlsxNext` moves it from a row `r < 2^63 - 1` to row `r + 1`, `xlsxRowid`
reports the current row, `xlsxEof` is true exactly when the current row is
greater than `N` (neither call changes `N`); a scan that starts with
`xlsxFilter` and calls `xlsxNext` until `xlsxEof` ends within `N + 1` steps
and reports the rowids 1, 2, …, N in this order, each once; and with `N = 0`
the cursor is at Eof right after `xlsxFilter`. -/
theorem xlsx_scan_reports_rows (tab : xlsx_vtab) (cur : xlsx_cursor)
    (hN : 0 ≤ tab.iMaxRowid) (hmax : tab.iMaxRowid < 2 ^ 63 - 1) :
    (xlsxFilter tab cur).2.iRowid = 1 ∧
    (-2 ^ 63 ≤ cur.iRowid → cur.iRowid < 2 ^ 63 - 1 →
      (xlsxNext tab cur).2.iRowid = cur.iRowid + 1) ∧
    xlsxRowid cur = cur.iRowid ∧
    (xlsxEof tab cur = true ↔ tab.iMaxRowid < cur.iRowid) ∧
    (xlsxFilter tab cur).1.iMaxRowid = tab.iMaxRowid ∧
    (xlsxNext tab cur).1.iMaxRowid = tab.iMaxRowid ∧
    (∀ fuel, tab.iMaxRowid.toNat < fuel →
      fullScan fuel tab cur =
        some ((List.range tab.iMaxRowid.toNat).map fun (j : Nat) => (j : Int) + 1)) ∧
    (tab.iMaxRowid = 0 →
      xlsxEof (xlsxFilter tab cur).1 (xlsxFilter tab cur).2 = true) := by
  have hone : (xlsxFilter tab cur).2.iRowid = 1 := by
    simp only [xlsxFilter, xlsxNext, zero_add, wrap64_one]
  refine ⟨hone, ?_, rfl, by simp [xlsxEof], rfl, rfl, ?_, ?_⟩
  · intro hlo hhi
    simp only [xlsxNext]
    exact wrap64_id _ (by omega) (by omega)
  · intro fuel hf
    have h := scanLoop_rows tab.iMaxRowid hmax tab.iMaxRowid.toNat fuel (xlsxFilter tab cur).1
      (xlsxFilter tab cur).2 rfl (by rw [hone]; omega) (by rw [hone]; omega) hf
    rw [fullScan, h, hone]
    congr 1
    apply List.map_congr_left
    intro j _
    omega
  · intro h0
    simp only [xlsxEof, hone, decide_eq_true_eq]
    show tab.iMaxRowid < 1
    omega

/-- Witness for C2 (amended): the table of the sample worksheet (`N = 2`) and a
cursor left on row 77. -/
theorem xlsx_scan_reports_rows_witness :
    (xlsxFilter sampleTab ⟨77⟩).2.iRowid = 1 ∧
    (xlsxNext sampleTab ⟨77⟩).2.iRowid = 77 + 1 ∧
    fullScan 3 sampleTab ⟨77⟩ = some [1, 2] :=
  ⟨(xlsx_scan_reports_rows sampleTab ⟨77⟩ (by decide) (by decide)).1,
    (xlsx_scan_reports_rows sampleTab ⟨77⟩ (by decide) (by decide)).2.1 (by decide)
      (by decide),
    ((xlsx_scan_reports_rows sampleTab ⟨77⟩ (by decide)
      (by decide)).2.2.2.2.2.2.1 3 (by decide)).trans (by decide)⟩

/-- C2 (counterexample). A worksheet whose only cell is in row `2^63 - 1` gives
`iMaxRowid = 2^63 - 1`.  On that row the cursor is not at Eof, `xlsxNext` does
not move it to row `2^63` but to row `-2^63`, and it is not at Eof there
either. -/
theorem xlsxNext_wraps_at_last_row :
    (xlsxConnect 1 lastRowValue 0).map (fun c => c.tab) = some lastRowTab ∧
    xlsxEof lastRowTab ⟨2 ^ 63 - 1⟩ = false ∧
    (xlsxNext lastRowTab ⟨2 ^ 63 - 1⟩).2.iRowid = -2 ^ 63 ∧
    (xlsxNext lastRowTab ⟨2 ^ 63 - 1⟩).2.iRowid ≠ (2 ^ 63 - 1) + 1 ∧
    xlsxEof (xlsxNext lastRowTab ⟨2 ^ 63 - 1⟩).1 (xlsxNext lastRowTab ⟨2 ^ 63 - 1⟩).2 =
      false := by
  decide
/-! ## The recursive table of the schema query -/

theorem dropWhile_append_all {α : Type} (p : α → Bool) :
    ∀ (xs ys : List α), (∀ x ∈ xs, p x = true) →
      (xs ++ ys).dropWhile p = ys.dropWhile p := by
  intro xs
  induction xs with
  | nil => intro ys _; rfl
  | cons x xs ih =>
    intro ys h
    have hx : p x = true := h x (List.mem_cons_self _ _)
    rw [List.cons_append, List.dropWhile_cons_of_pos hx]
    exact ih ys fun y hy => h y (List.mem_cons_of_mem _ hy)

theorem dropWhile_head_neg {α : Type} (p : α → Bool) (xs : List α)
    (h : ∀ x, xs.head? = some x → p x = false) : xs.dropWhile p = xs := by
  cases xs with
  | nil => rfl
  | cons x xs =>
    have hx : p x = false := h x rfl
    rw [List.dropWhile_cons_of_neg (by simp [hx])]

theorem upper_not_digit : ∀ c ∈ upperSet, digitSet.contains c = false := by decide

theorem digit_not_upper : ∀ c ∈ digitSet, upperSet.contains c = false := by decide

theorem trim_letters_digits (L D : List Char) (hL : L ≠ [])
    (hLs : ∀ c ∈ L, c ∈ upperSet) (hDs : ∀ c ∈ D, c ∈ digitSet) :
    sqlTrim (String.mk (L ++ D)) "0123456789" = String.mk L ∧
    sqlTrim (String.mk (L ++ D)) "ABCDEFGHIJKLMNOPQRSTUVWXYZ" = String.mk D := by
  have hdig : "0123456789".toList = digitSet := rfl
  have hupp : "ABCDEFGHIJKLMNOPQRSTUVWXYZ".toList = upperSet := rfl
  have hml : (String.mk (L ++ D)).toList = L ++ D := rfl
  constructor
  · unfold sqlTrim
    rw [hdig, hml]
    have h1 : (L ++ D).dropWhile (fun c => digitSet.contains c) = L ++ D := by
      apply dropWhile_head_neg
      intro x hx
      cases L with
      | nil => exact absurd rfl hL
      | cons a L =>
        simp only [List.cons_append, List.head?_cons, Option.some.injEq] at hx
        subst hx
        exact upper_not_digit _ (hLs _ (List.mem_cons_self _ _))
    have h2 : (D.reverse ++ L.reverse).dropWhile (fun c => digitSet.contains c) =
        L.reverse.dropWhile (fun c => digitSet.contains c) := by
      apply dropWhile_append_all
      intro x hx
      have := hDs x (List.mem_reverse.mp hx)
      simpa using this
    have h3 : L.reverse.dropWhile (fun c => digitSet.contains c) = L.reverse := by
      apply dropWhile_head_neg
      intro x hx
      have hmem : x ∈ L.reverse := List.mem_of_mem_head? hx
      exact upper_not_digit _ (hLs _ (List.mem_reverse.mp hmem))
    rw [h1, List.reverse_append, h2, h3, List.reverse_reverse]
  · unfold sqlTrim
    rw [hupp, hml]
    have h1 : (L ++ D).dropWhile (fun c => upperSet.contains c) =
        D.dropWhile (fun c => upperSet.contains c) := by
      apply dropWhile_append_all
      intro x hx
      simpa using hLs x hx
    have h2 : D.dropWhile (fun c => upperSet.contains c) = D := by
      apply dropWhile_head_neg
      intro x hx
      exact digit_not_upper _ (hDs _ (List.mem_of_mem_head? hx))
    have h3 : D.reverse.dropWhile (fun c => upperSet.contains c) = D.reverse := by
      apply dropWhile_head_neg
      intro x hx
      have hmem : x ∈ D.reverse := List.mem_of_mem_head? hx
      exact digit_not_upper _ (hDs _ (List.mem_reverse.mp hmem))
    rw [h1, h2, h3, List.reverse_reverse]

theorem selectCell_rows (S : NumericText) (ss : List SharedString) (ref raw : String)
    (t : Option String) :
    selectCell S ss ⟨ref, some raw, t⟩ ≠ [] ∧
    ∀ v ∈ selectCell S ss ⟨ref, some raw, t⟩, v.col = refCol ref ∧ v.row = refRow S ref := by
  unfold selectCell
  simp only
  split
  · simp
  · rename_i ms hms
    refine ⟨fun h => hms (List.map_eq_nil_iff.mp h), ?_⟩
    intro v hv
    obtain ⟨e, _, rfl⟩ := List.mem_map.mp hv
    exact ⟨rfl, rfl⟩

theorem buildValue_single (S : NumericText) (ss : List SharedString) (c : CellNode)
    (v : ValueRow) (h : selectCell S ss c = [v]) : buildValue S [[c]] ss = [[v]] := by
  have hs : selectValueRows S [c] ss = [v] := by
    simp [selectValueRows, h]
  simp [buildValue, hs, pkUnique]

theorem store_digits (S : NumericText) (hS : S.StoresDigits) (D : List Char) (hD : D ≠ [])
    (hDs : ∀ c ∈ D, c ∈ digitSet) (hv : digitsValue D < 2 ^ 63) :
    S.store (String.mk D) = .integer (digitsValue D) := by
  have hd : isDigitText (String.mk D) = true := by
    unfold isDigitText
    have : (String.mk D).toList = D := rfl
    rw [this]
    simp only [Bool.and_eq_true, Bool.not_eq_true', List.isEmpty_eq_false, ne_eq,
      List.all_eq_true]
    refine ⟨hD, ?_⟩
    intro c hc
    have := hDs c hc
    simpa [digitSet] using this
  exact hS (String.mk D) hd hv

/-- C5 (amended). SQLite storing a text of digits below `2^63` as that
integer: while the value table is built, a reference made of one or more
capital letters followed by one or more digits, their number below `2^63`, is
split into its alphabetic part, stored in `col`, and its numeric part, stored
in `row` as the integer it denotes; "AB12" gives ("AB", 12) and "A1" gives
("A", 1).  No reference is rejected: whatever its reference, a cell object
with a `v` key yields at least one row, each with `col = Trim(ref, digits)` and
`row = Trim(ref, letters)`; the rows of all worksheets are stored unless two
rows of one worksheet have the same `(row, col)`, in which case the INSERT is
aborted and nothing is stored; "1A" gives column "A" and row 1 and, as the
only cell of the workbook, is stored as A1. -/
theorem reference_split (S : NumericText) (hS : S.StoresDigits) (L D : List Char)
    (hL : L ≠ []) (hD : D ≠ []) (hLs : ∀ c ∈ L, c ∈ upperSet)
    (hDs : ∀ c ∈ D, c ∈ digitSet) (hv : digitsValue D < 2 ^ 63) :
    refCol (String.mk (L ++ D)) = String.mk L ∧
    refRowText (String.mk (L ++ D)) = String.mk D ∧
    refRow S (String.mk (L ++ D)) = .integer (digitsValue D) ∧
    (refCol "AB12" = "AB" ∧ refRow S "AB12" = .integer 12) ∧
    (refCol "A1" = "A" ∧ refRow S "A1" = .integer 1) ∧
    (∀ (ss : List SharedString) (ref raw : String) (t : Option String),
      selectCell S ss ⟨ref, some raw, t⟩ ≠ [] ∧
      ∀ v ∈ selectCell S ss ⟨ref, some raw, t⟩,
        v.col = refCol ref ∧ v.row = refRow S ref) ∧
    (∀ (sheets : List (List CellNode)) (ss : List SharedString),
      ((∀ cells ∈ sheets, pkUnique (selectValueRows S cells ss) = true) →
        buildValue S sheets ss = sheets.map fun cells => selectValueRows S cells ss) ∧
      ((∃ cells ∈ sheets, pkUnique (selectValueRows S cells ss) = false) →
        buildValue S sheets ss = sheets.map fun _ => [])) ∧
    (refCol "1A" = "A" ∧ refRow S "1A" = .integer 1 ∧
      buildValue S [[⟨"1A", some "x", none⟩]] [] = [[⟨"A", .integer 1, some "x"⟩]]) := by
  obtain ⟨h1, h2⟩ := trim_letters_digits L D hL hLs hDs
  have hAB : refRow S "AB12" = .integer 12 := by
    have ht : refRowText "AB12" = String.mk ['1', '2'] := by decide
    rw [refRow, ht, store_digits S hS ['1', '2'] (by decide) (by decide) (by decide)]
    decide
  have hA1 : ∀ ref, refRowText ref = String.mk ['1'] → refRow S ref = .integer 1 := by
    intro ref ht
    rw [refRow, ht, store_digits S hS ['1'] (by decide) (by decide) (by decide)]
    decide
  refine ⟨h1, h2, ?_, ⟨by decide, hAB⟩, ⟨by decide, hA1 "A1" (by decide)⟩,
    selectCell_rows S, ?_, by decide, hA1 "1A" (by decide), ?_⟩
  · rw [refRow, show refRowText (String.mk (L ++ D)) = String.mk D from h2]
    exact store_digits S hS D hD hDs hv
  · intro sheets ss
    constructor
    · intro h
      have hall : (sheets.all fun cells => pkUnique (selectValueRows S cells ss)) = true :=
        List.all_eq_true.mpr h
      simp only [buildValue, hall, if_true]
    · rintro ⟨cells, hmem, hf⟩
      have hall : ¬ (sheets.all fun cells => pkUnique (selectValueRows S cells ss)) = true := by
        intro h
        have := List.all_eq_true.mp h cells hmem
        rw [hf] at this
        exact absurd this (by simp)
      simp only [buildValue, hall, Bool.false_eq_true, if_false]
  · apply buildValue_single
    have hc : refCol "1A" = "A" := by decide
    simp [selectCell, sharedMatches, hc, hA1 "1A" (by decide)]

/-- Witness for C5 (amended): the reference AB12, read with `digitNumeric`. -/
theorem reference_split_witness :
    refCol (String.mk (['A', 'B'] ++ ['1', '2'])) = String.mk ['A', 'B'] ∧
    refRow digitNumeric (String.mk (['A', 'B'] ++ ['1', '2'])) =
      .integer (digitsValue ['1', '2']) :=
  ⟨(reference_split digitNumeric digitNumeric_lawful.1 ['A', 'B'] ['1', '2'] (by decide)
      (by decide) (by decide) (by decide) (by decide)).1,
    (reference_split digitNumeric digitNumeric_lawful.1 ['A', 'B'] ['1', '2'] (by decide)
      (by decide) (by decide) (by decide) (by decide)).2.2.1⟩

/-- C5 (counterexample). The reference "1A" is not rejected: it is split into
column "A" and row 1, and a workbook whose only cell carries it stores that
cell as A1. -/
theorem reference_1A_is_stored :
    refCol "1A" = "A" ∧ refRowText "1A" = "1" ∧ refRow digitNumeric "1A" = .integer 1 ∧
    buildValue digitNumeric [[⟨"1A", some "x", none⟩]] [] =
      [[⟨"A", .integer 1, some "x"⟩]] := by
  decide
theorem sharedMatches_cases (S : NumericText) (hS : S.Lawful) (raw : String) :
    ∀ (ss : List SharedString), (ss.map fun e => e.id).Nodup →
      (sharedMatches S ss raw = [] ∧ ∀ e ∈ ss, S.eqInt raw e.id = false) ∨
      (∃ e ∈ ss, S.eqInt raw e.id = true ∧ sharedMatches S ss raw = [e] ∧
        ∀ e' ∈ ss, S.eqInt raw e'.id = true → e' = e) := by
  intro ss
  induction ss with
  | nil => intro _; left; exact ⟨rfl, by simp⟩
  | cons x xs ih =>
    intro hnd
    rw [List.map_cons, List.nodup_cons] at hnd
    obtain ⟨hx, hxs⟩ := hnd
    have hnot : ∀ e ∈ xs, e.id ≠ x.id := by
      intro e he heq
      exact hx (heq ▸ List.mem_map_of_mem (fun e => e.id) he)
    by_cases hp : S.eqInt raw x.id = true
    · right
      have hnone : ∀ e ∈ xs, S.eqInt raw e.id = false := by
        intro e he
        cases h : S.eqInt raw e.id with
        | false => rfl
        | true => exact absurd (hS.2.2 raw e.id x.id h hp) (hnot e he)
      refine ⟨x, List.mem_cons_self _ _, hp, ?_, ?_⟩
      · unfold sharedMatches
        simp only [List.filter_cons, hp, if_true]
        congr 1
        apply List.filter_eq_nil_iff.mpr
        intro e he h
        rw [hnone e he] at h
        exact absurd h (by simp)
      · intro e' he' h
        rcases List.mem_cons.mp he' with rfl | he'
        · rfl
        · rw [hnone e' he'] at h
          exact absurd h (by simp)
    · have hf : S.eqInt raw x.id = false := by simpa using hp
      have hfx : sharedMatches S (x :: xs) raw = sharedMatches S xs raw := by
        unfold sharedMatches
        simp only [List.filter_cons, hf, Bool.false_eq_true, if_false]
      rcases ih hxs with ⟨hnil, hall⟩ | ⟨e, he, hpe, hm, huniq⟩
      · left
        refine ⟨hfx.trans hnil, ?_⟩
        intro e he
        rcases List.mem_cons.mp he with rfl | he
        · exact hf
        · exact hall e he
      · right
        refine ⟨e, List.mem_cons_of_mem _ he, hpe, hfx.trans hm, ?_⟩
        intro e' he' h
        rcases List.mem_cons.mp he' with rfl | he'
        · exact absurd h hp
        · exact huniq e' he' h

/-- C6 (amended). SQLite storing and comparing a text of digits below `2^63`
as the integer it denotes, no text being equal to two different integers, and
the shared-string ids being unique: when the value table is built, a cell
tagged as a shared string (`@t = 's'`) whose raw value equals the id of an
entry in the comparison `v.value = ss.id` gets the text of that entry, and a
cell without the tag keeps its raw value verbatim; with entries 0 = Red and
1 = Blue a tagged cell with raw value "1" resolves to Blue.  A tagged cell
whose raw value equals the id of no entry gets a row with a NULL value, stored
like any other row (with raw value "2", as the only cell of the workbook, it
is stored as A1 with NULL): construction does not fail. -/
theorem shared_string_value (S : NumericText) (hS : S.Lawful) (ss : List SharedString)
    (c : CellNode) (raw : String) (hnd : (ss.map fun e => e.id).Nodup)
    (hv : c.v = some raw) :
    (c.t ≠ some "s" → selectCell S ss c = [⟨refCol c.r, refRow S c.r, some raw⟩]) ∧
    (c.t = some "s" → ∀ e ∈ ss, S.eqInt raw e.id = true →
      selectCell S ss c = [⟨refCol c.r, refRow S c.r, e.val⟩]) ∧
    (c.t = some "s" → (∀ e ∈ ss, S.eqInt raw e.id = false) →
      selectCell S ss c = [⟨refCol c.r, refRow S c.r, none⟩]) ∧
    buildValue S [[⟨"A1", some "1", some "s"⟩]] sampleShared =
      [[⟨"A", .integer 1, some "Blue"⟩]] ∧
    buildValue S [[⟨"A1", some "2", some "s"⟩]] sampleShared =
      [[⟨"A", .integer 1, none⟩]] := by
  have key : ∀ (ss : List SharedString) (c : CellNode) (raw : String),
      (ss.map fun e => e.id).Nodup → c.v = some raw →
      (c.t ≠ some "s" → selectCell S ss c = [⟨refCol c.r, refRow S c.r, some raw⟩]) ∧
      (c.t = some "s" → ∀ e ∈ ss, S.eqInt raw e.id = true →
        selectCell S ss c = [⟨refCol c.r, refRow S c.r, e.val⟩]) ∧
      (c.t = some "s" → (∀ e ∈ ss, S.eqInt raw e.id = false) →
        selectCell S ss c = [⟨refCol c.r, refRow S c.r, none⟩]) := by
    intro ss c raw hnd hv
    refine ⟨?_, ?_, ?_⟩
    · intro ht
      unfold selectCell
      rw [hv]
      rcases sharedMatches_cases S hS raw ss hnd with ⟨hnil, _⟩ | ⟨e, _, _, hm, _⟩
      · simp [hnil, ht]
      · simp [hm, ht]
    · intro ht e he hpe
      unfold selectCell
      rw [hv]
      rcases sharedMatches_cases S hS raw ss hnd with ⟨_, hall⟩ | ⟨e', _, _, hm, huniq⟩
      · rw [hall e he] at hpe
        exact absurd hpe (by simp)
      · have := huniq e he hpe
        subst this
        simp [hm, ht]
    · intro ht hall
      unfold selectCell
      rw [hv]
      rcases sharedMatches_cases S hS raw ss hnd with ⟨hnil, _⟩ | ⟨e, he, hpe, _, _⟩
      · simp [hnil, ht]
      · rw [hall e he] at hpe
        exact absurd hpe (by simp)
  have hcol : refCol "A1" = "A" := by decide
  have hrow : refRow S "A1" = .integer 1 := by
    have ht : refRowText "A1" = String.mk ['1'] := by decide
    rw [refRow, ht, store_digits S hS.1 ['1'] (by decide) (by decide) (by decide)]
    decide
  have heq : ∀ (s : String) (k : Nat), isDigitText s = true → digitsValue s.toList = k →
      k < 2 ^ 63 → ∀ n : Int, (S.eqInt s n = true ↔ n = (k : Int)) := by
    intro s k hd hk hlt n
    rw [← hk]
    exact hS.2.1 s n hd (by omega)
  obtain ⟨h1, h2, h3⟩ := key ss c raw hnd hv
  refine ⟨h1, h2, h3, ?_, ?_⟩
  · apply buildValue_single
    have h := (key sampleShared ⟨"A1", some "1", some "s"⟩ "1" (by decide) rfl).2.1 rfl
      ⟨1, some "Blue"⟩ (by decide)
      ((heq "1" 1 (by decide) (by decide) (by decide) 1).mpr rfl)
    simpa only [hcol, hrow] using h
  · apply buildValue_single
    have h := (key sampleShared ⟨"A1", some "2", some "s"⟩ "2" (by decide) rfl).2.2 rfl
      (by
        intro e he
        have hne : e.id ≠ 2 := by
          simp only [sampleShared, List.mem_cons, List.mem_singleton, List.not_mem_nil,
            or_false] at he
          rcases he with rfl | rfl <;> decide
        cases h : S.eqInt "2" e.id with
        | false => rfl
        | true =>
          exact absurd ((heq "2" 2 (by decide) (by decide) (by decide) e.id).mp h) hne)
    simpa only [hcol, hrow] using h

/-- Witness for C6 (amended): the tagged cell A1 with raw value "1" and the
shared strings 0 = Red, 1 = Blue, read with `digitNumeric`. -/
theorem shared_string_value_witness :
    selectCell digitNumeric sampleShared ⟨"A1", some "1", some "s"⟩ =
      [⟨refCol "A1", refRow digitNumeric "A1", some "Blue"⟩] :=
  (shared_string_value digitNumeric digitNumeric_lawful sampleShared
    ⟨"A1", some "1", some "s"⟩ "1" (by decide) rfl).2.1 rfl
    ⟨1, some "Blue"⟩ (by decide) (by decide)

/-- C6 (counterexample). With entries 0 = Red and 1 = Blue, a tagged cell with
raw value "2" does not make construction fail: the cell A1 is stored with a
NULL value and `xlsxConnect` declares the table. -/
theorem unknown_shared_string_is_stored :
    buildValue digitNumeric [[⟨"A1", some "2", some "s"⟩]] sampleShared =
      [[⟨"A", .integer 1, none⟩]] ∧
    (xlsxConnect 2 [⟨"A", .integer 1, none⟩] 0).map (fun c => c.names) = some ["A"] := by
  decide
/-! ## The empty worksheet -/

/-- C7 (amended). For a worksheet that exists in the workbook but has zero
cells, schema discovery ends at once and yields exactly one spreadsheet column,
named A (the declared table is `x(row, [A])`), and max row 0; a cursor over it
is at Eof immediately after `xlsxFilter`. -/
theorem empty_worksheet_schema (fuel : Nat) (header_row : Int) (cur : xlsx_cursor) :
    ∃ c, xlsxConnect (fuel + 1) [] header_row = some c ∧ c.names = ["A"] ∧
      c.cols = "[A]" ∧ c.tab.iMaxRowid = 0 ∧
      xlsxEof (xlsxFilter c.tab cur).1 (xlsxFilter c.tab cur).2 = true := by
  have hrows : cteRows (maxColumn []) (fuel + 1) = some [(1, "A")] := by
    simp [cteRows, cteRun, maxColumn, orderByDesc, sqlNe]
  refine ⟨_, by rw [xlsxConnect, hrows], ?_, ?_, ?_, ?_⟩
  · simp [columnNames, namesOf, headerMatches]
  · simp only [columnNames, namesOf, headerMatches, List.filter_nil, List.flatMap_cons,
      List.flatMap_nil, List.append_nil]
    decide
  · simp [sqlMaxRow, column_int64]
  · simp [sqlMaxRow, column_int64, xlsxEof, xlsxFilter, xlsxNext, wrap64_one]

/-- C7 (counterexample). For a worksheet with zero cells the schema query does
not yield zero spreadsheet columns: it yields the one column A. -/
theorem empty_worksheet_declares_column_A :
    (xlsxConnect 1 [] 1).map (fun c => c.names) = some ["A"] ∧
    (xlsxConnect 1 [] 1).map (fun c => c.names.length) ≠ some 0 := by
  decide

/-! ## Two cursors -/

theorem move2_keeps_other_rowid (s : TwoCursors) :
    xlsxRowid (move2 s .nextB).a = xlsxRowid s.a ∧
    xlsxRowid (move2 s .filterB).a = xlsxRowid s.a ∧
    xlsxRowid (move2 s .nextA).b = xlsxRowid s.b ∧
    xlsxRowid (move2 s .filterA).b = xlsxRowid s.b ∧
    (xlsxColumn (move2 s .nextB).tab (move2 s .nextB).a 0).result =
      (xlsxColumn s.tab s.a 0).result :=
  ⟨rfl, rfl, rfl, rfl, rfl⟩

/-- C9 (failing input). Two cursors on the table of the sample worksheet
(A1 = Name, A2 = Ann), both positioned on row 1 by their own `xlsxFilter`:
the first cursor reads "Name" for column A.  After one `xlsxNext` on the second
cursor the first cursor still reports row 1 (`xlsxRowid`, column 0), yet
`xlsxColumn` on it now returns "Ann", the cell of row 2. -/
theorem other_cursor_next_changes_column_read :
    xlsxRowid twoOnRowOne.a = 1 ∧
    (xlsxColumn twoOnRowOne.tab twoOnRowOne.a 1).result = .text "Name" ∧
    cellAt sampleValue 1 "A" = .text "Name" ∧
    xlsxRowid (move2 twoOnRowOne .nextB).a = 1 ∧
    (xlsxColumn (move2 twoOnRowOne .nextB).tab (move2 twoOnRowOne .nextB).a 0).result =
      .integer 1 ∧
    (xlsxColumn (move2 twoOnRowOne .nextB).tab (move2 twoOnRowOne .nextB).a 1).result =
      .text "Ann" := by
  decide
/-! ## The maximum column -/

theorem orderBefore_iff (a b : String) :
    orderBefore a b = true ↔
      toLex ((lengthClass b).toList, b.toList) ≤ toLex ((lengthClass a).toList, a.toList) := by
  unfold orderBefore textLt
  rw [Prod.Lex.le_iff]
  simp only [Bool.or_eq_true, decide_eq_true_eq, Bool.and_eq_true, Bool.not_eq_true',
    decide_eq_false_iff_not, not_lt]
  constructor
  · rintro (h | ⟨h1, h2⟩)
    · exact Or.inl h
    · exact Or.inr ⟨by rw [h1], h2⟩
  · rintro (h | ⟨h1, h2⟩)
    · exact Or.inl h
    · exact Or.inr ⟨(String.ext h1).symm, h2⟩

theorem orderBefore_refl (a : String) : orderBefore a a = true :=
  (orderBefore_iff a a).mpr le_rfl

theorem orderBefore_total (a b : String) (h : ¬ orderBefore a b = true) :
    orderBefore b a = true := by
  rw [orderBefore_iff] at h ⊢
  exact le_of_lt (not_le.mp h)

theorem orderBefore_trans (a b c : String) (h1 : orderBefore a b = true)
    (h2 : orderBefore b c = true) : orderBefore a c = true := by
  rw [orderBefore_iff] at h1 h2 ⊢
  exact le_trans h2 h1

theorem head_orderInsert (a : String) (l : List String) :
    ∃ h, (orderInsert a l).head? = some h ∧ (h = a ∨ l.head? = some h) ∧
      orderBefore h a = true ∧ ∀ b, l.head? = some b → orderBefore h b = true := by
  cases l with
  | nil => exact ⟨a, rfl, Or.inl rfl, orderBefore_refl a, by simp⟩
  | cons b bs =>
    by_cases hab : orderBefore a b = true
    · refine ⟨a, by simp [orderInsert, hab], Or.inl rfl, orderBefore_refl a, ?_⟩
      intro b' hb'
      simp only [List.head?_cons, Option.some.injEq] at hb'
      exact hb' ▸ hab
    · refine ⟨b, by simp [orderInsert, hab], Or.inr rfl, orderBefore_total a b hab, ?_⟩
      intro b' hb'
      simp only [List.head?_cons, Option.some.injEq] at hb'
      exact hb' ▸ orderBefore_refl b

theorem orderByDesc_head :
    ∀ (cols : List String), cols ≠ [] →
      ∃ h, (orderByDesc cols).head? = some h ∧ h ∈ cols ∧
        ∀ x ∈ cols, orderBefore h x = true := by
  intro cols
  induction cols with
  | nil => intro h; exact absurd rfl h
  | cons a l ih =>
    intro _
    have hsort : orderByDesc (a :: l) = orderInsert a (orderByDesc l) := rfl
    obtain ⟨h, hh, hor, hha, hhb⟩ := head_orderInsert a (orderByDesc l)
    by_cases hl : l = []
    · subst hl
      refine ⟨a, rfl, List.mem_cons_self _ _, ?_⟩
      intro x hx
      rw [List.mem_singleton.mp hx]
      exact orderBefore_refl a
    · obtain ⟨h0, hh0, hmem0, hall0⟩ := ih hl
      refine ⟨h, by rw [hsort, hh], ?_, ?_⟩
      · rcases hor with rfl | hor
        · exact List.mem_cons_self _ _
        · rw [hh0] at hor
          injection hor with hor
          exact hor ▸ List.mem_cons_of_mem _ hmem0
      · intro x hx
        rcases List.mem_cons.mp hx with rfl | hx
        · exact hha
        · exact orderBefore_trans h h0 x (hhb h0 hh0) (hall0 x hx)

theorem orderBefore_of_short (h x : String) (hh : 1 ≤ h.length ∧ h.length ≤ 3)
    (hx : 1 ≤ x.length ∧ x.length ≤ 3) (hb : orderBefore h x = true) :
    x.length ≤ h.length ∧ (x.length = h.length → ¬ textLt h x) := by
  unfold orderBefore lengthClass at hb
  obtain ⟨hh1, hh3⟩ := hh
  obtain ⟨hx1, hx3⟩ := hx
  generalize h.length = n at hb hh1 hh3 ⊢
  generalize x.length = k at hb hx1 hx3 ⊢
  interval_cases n <;> interval_cases k <;>
    simp_all +decide

/-- C8 (amended). For every non-empty set of cells whose column letters are
one to three characters long, the column that the schema query selects as the
maximum column (`ORDER BY` the length class `DESC`, `col DESC`, `LIMIT 1`)
is the column of some cell, no cell has longer column letters, and no cell with
column letters of the same length is alphabetically greater. -/
theorem maxColumn_is_greatest (value : List ValueRow) (hne : value ≠ [])
    (hlen : ∀ v ∈ value, 1 ≤ v.col.length ∧ v.col.length ≤ 3) :
    ∃ m, maxColumn value = some m ∧ (∃ v ∈ value, v.col = m) ∧
      ∀ v ∈ value, v.col.length ≤ m.length ∧
        (v.col.length = m.length → ¬ textLt m v.col) := by
  have hcols : (value.map fun v => v.col) ≠ [] := by
    intro h
    exact hne (List.map_eq_nil_iff.mp h)
  obtain ⟨m, hm, hmem, hall⟩ := orderByDesc_head _ hcols
  obtain ⟨w, hw, hwm⟩ := List.mem_map.mp hmem
  refine ⟨m, hm, ⟨w, hw, hwm⟩, ?_⟩
  intro v hv
  exact orderBefore_of_short m v.col (hwm ▸ hlen w hw) (hlen v hv)
    (hall v.col (List.mem_map_of_mem _ hv))

/-- Witness for C8 (amended): the sample worksheet, whose maximum column is B. -/
theorem maxColumn_is_greatest_witness :
    ∃ m, maxColumn sampleValue = some m ∧ (∃ v ∈ sampleValue, v.col = m) ∧
      ∀ v ∈ sampleValue, v.col.length ≤ m.length ∧
        (v.col.length = m.length → ¬ textLt m v.col) :=
  maxColumn_is_greatest sampleValue (by decide) (by decide)

/-- C8 (counterexample). With cells in the columns AAAA and ZZZ the query
selects ZZZ, although the column letters AAAA are longer. -/
theorem maxColumn_ignores_fourth_letter :
    maxColumn [⟨"AAAA", .integer 1, some "x"⟩, ⟨"ZZZ", .integer 1, some "y"⟩] = some "ZZZ" ∧
    "ZZZ".length < "AAAA".length := by
  decide
/-! ## Column letters against the spreadsheet naming -/

theorem char_toNat_ofNat : ∀ n, n < 128 → (Char.ofNat n).toNat = n := by
  decide

theorem parse_zCol (i : Nat) (h : i < 17576) :
    parseColumnLetter (zCol i) = if i < 676 then i else i + 26 := by
  unfold parseColumnLetter zCol
  by_cases h1 : i / 26 = 0
  · have e1 := char_toNat_ofNat (i % 26 + 64 + 1) (by omega)
    simp only [h1, if_true, String.toList, List.foldl_cons, List.foldl_nil, e1]
    split <;> omega
  · by_cases h2 : i / 676 = 0
    · have e1 := char_toNat_ofNat (i % 676 / 26 + 64) (by omega)
      have e2 := char_toNat_ofNat (i % 26 + 64 + 1) (by omega)
      simp only [h1, h2, if_true, if_false, String.toList, List.foldl_cons, List.foldl_nil,
        e1, e2]
      split <;> omega
    · have e1 := char_toNat_ofNat (i % 17576 / 676 + 64) (by omega)
      have e2 := char_toNat_ofNat (i % 676 / 26 + 64 + 1) (by omega)
      have e3 := char_toNat_ofNat (i % 26 + 64 + 1) (by omega)
      simp only [h1, h2, if_false, String.toList, List.foldl_cons, List.foldl_nil,
        e1, e2, e3]
      split <;> omega

theorem zCol_injective (i j : Nat) (hi : i < 17576) (hj : j < 17576)
    (h : zCol i = zCol j) : i = j := by
  have pi := parse_zCol i hi
  have pj := parse_zCol j hj
  rw [h, pj] at pi
  split at pi <;> split at pi <;> omega

theorem zCol_length (i : Nat) :
    (zCol i).length = if i < 26 then 1 else if i < 676 then 2 else 3 := by
  unfold zCol
  by_cases h1 : i / 26 = 0
  · have : i < 26 := by omega
    simp [h1, this, String.length]
  · by_cases h2 : i / 676 = 0
    · have a : ¬ i < 26 := by omega
      have b : i < 676 := by omega
      simp [h1, h2, a, b, String.length]
    · have a : ¬ i < 26 := by omega
      have b : ¬ i < 676 := by omega
      simp [h1, h2, a, b, String.length]

theorem zCol_ne_ZA (i : Nat) : zCol i ≠ "ZA" := by
  intro h
  by_cases hi : i < 676
  · have p := parse_zCol i (by omega)
    rw [h, if_pos hi] at p
    have : parseColumnLetter "ZA" = 676 := by decide
    omega
  · have l := zCol_length i
    rw [h] at l
    have a : ¬ i < 26 := by omega
    rw [if_neg a, if_neg hi] at l
    exact absurd l (by decide)

set_option maxRecDepth 1000000 in
theorem zCol_eq_columnLetterOf : ∀ i, i ≤ 675 → zCol i = columnLetterOf i := by
  decide

/-- C1 (failing input). For the zero-based indices 0, 25 and 26 the letters
that `xlsxColumn` and the schema query compute are the spreadsheet names A, Z
and AA; for 701 they are "AAZ" (spreadsheet name ZZ, parsing back to 727) and
for 702 they are "ABA" (spreadsheet name AAA, parsing back to 728). -/
theorem zCol_at_701_and_702 :
    (zCol 0 = "A" ∧ zCol 25 = "Z" ∧ zCol 26 = "AA") ∧
    (zCol 701 = "AAZ" ∧ cteCol 701 = "AAZ" ∧ columnLetterOf 701 = "ZZ" ∧
      parseColumnLetter (zCol 701) = 727) ∧
    (zCol 702 = "ABA" ∧ cteCol 702 = "ABA" ∧ columnLetterOf 702 = "AAA" ∧
      parseColumnLetter (zCol 702) = 728) := by
  decide
/-! ## Reading a column through a single cursor -/

theorem stepLookup_eq_cellAt (tab : xlsx_vtab) (r : Int) (col : String)
    (h2 : tab.bind2 = .integer r) :
    (match stepLookup { tab with bind3 := .text col } with
      | some v => ofVal v.val
      | none => .null) = cellAt tab.value r col := by
  have hp : (fun v : ValueRow => sqlEq v.row (SqlValue.integer r) &&
      sqlEq (.text v.col) (.text col)) =
      fun v : ValueRow => decide (v.row = .integer r) && decide (v.col = col) := by
    funext v
    cases hv : v.row <;> simp [sqlEq]
  unfold stepLookup cellAt
  simp only [h2, hp]

theorem move_invariant (s : xlsx_vtab × xlsx_cursor) (m : Move) :
    (move s m).1.bind2 = .integer (move s m).2.iRowid ∧
    (move s m).1.value = s.1.value ∧ (move s m).1.iMaxRowid = s.1.iMaxRowid := by
  cases m <;> exact ⟨rfl, rfl, rfl⟩

theorem moves_value (ms : List Move) :
    ∀ s : xlsx_vtab × xlsx_cursor,
      (moves s ms).1.value = s.1.value ∧ (moves s ms).1.iMaxRowid = s.1.iMaxRowid := by
  induction ms with
  | nil => intro s; exact ⟨rfl, rfl⟩
  | cons m ms ih =>
    intro s
    have h := ih (move s m)
    have hm := move_invariant s m
    exact ⟨h.1.trans hm.2.1, h.2.trans hm.2.2⟩

theorem moves_bind2 (s : xlsx_vtab × xlsx_cursor) (ms : List Move) (hms : ms ≠ []) :
    (moves s ms).1.bind2 = .integer (moves s ms).2.iRowid := by
  rcases List.eq_nil_or_concat ms with h | ⟨ms', m, h⟩
  · exact absurd h hms
  · subst h
    have : moves s (ms'.concat m) = move (moves s ms') m := by
      simp [moves, List.foldl_append]
    rw [this]
    exact (move_invariant _ m).1

/-- Reading through a single cursor that was positioned by at least one
`xlsxFilter` or `xlsxNext`: column 0 is the row number; a column `c ≥ 1` is the
value of the cell of the current row in the column `zCol (c - 1)`, NULL when
there is none, which for `c ≤ 676` is the spreadsheet column with zero-based
index `c - 1`; the call returns `SQLITE_OK` and leaves the position, the bound
row and the cells as they are. -/
theorem xlsxColumn_single_cursor (tab0 : xlsx_vtab) (cur0 : xlsx_cursor) (ms : List Move)
    (hms : ms ≠ []) (c : Nat) :
    (xlsxColumn (moves (tab0, cur0) ms).1 (moves (tab0, cur0) ms).2 0).result =
      .integer (xlsxRowid (moves (tab0, cur0) ms).2) ∧
    (1 ≤ c →
      (xlsxColumn (moves (tab0, cur0) ms).1 (moves (tab0, cur0) ms).2 c).result =
        cellAt tab0.value (xlsxRowid (moves (tab0, cur0) ms).2) (zCol (c - 1))) ∧
    (1 ≤ c → c ≤ 676 →
      (xlsxColumn (moves (tab0, cur0) ms).1 (moves (tab0, cur0) ms).2 c).result =
        cellAt tab0.value (xlsxRowid (moves (tab0, cur0) ms).2) (columnLetterOf (c - 1))) ∧
    (xlsxColumn (moves (tab0, cur0) ms).1 (moves (tab0, cur0) ms).2 c).rc = SQLITE_OK ∧
    (xlsxColumn (moves (tab0, cur0) ms).1 (moves (tab0, cur0) ms).2 c).cur =
      (moves (tab0, cur0) ms).2 ∧
    (xlsxColumn (moves (tab0, cur0) ms).1 (moves (tab0, cur0) ms).2 c).tab.bind2 =
      (moves (tab0, cur0) ms).1.bind2 ∧
    (xlsxColumn (moves (tab0, cur0) ms).1 (moves (tab0, cur0) ms).2 c).tab.value =
      tab0.value := by
  have hb := moves_bind2 (tab0, cur0) ms hms
  have hv := (moves_value ms (tab0, cur0)).1
  generalize moves (tab0, cur0) ms = s at hb hv
  simp only at hv
  have hread : 1 ≤ c → (xlsxColumn s.1 s.2 c).result =
      cellAt tab0.value (xlsxRowid s.2) (zCol (c - 1)) := by
    intro hc
    have hc0 : c ≠ 0 := by omega
    rw [← hv, ← stepLookup_eq_cellAt s.1 (xlsxRowid s.2) (zCol (c - 1)) hb]
    simp [xlsxColumn, hc0]
  refine ⟨by simp [xlsxColumn, xlsxRowid], hread, ?_, ?_, ?_, ?_, ?_⟩
  · intro hc hc'
    rw [hread hc, zCol_eq_columnLetterOf (c - 1) (by omega)]
  · unfold xlsxColumn; split <;> rfl
  · unfold xlsxColumn; split <;> rfl
  · unfold xlsxColumn; split <;> rfl
  · rw [← hv]; unfold xlsxColumn; split <;> rfl

theorem wide_sheet_never_reads_ZA (c : Nat) :
    (xlsxColumn (xlsxFilter wideTab xlsxOpen).1 (xlsxFilter wideTab xlsxOpen).2 c).result ≠
      .text "x" := by
  by_cases hc : c = 0
  · subst hc; decide
  · have hza : decide ("ZA" = zCol (c - 1)) = false :=
      decide_eq_false fun h => zCol_ne_ZA (c - 1) h.symm
    simp only [xlsxColumn, hc, if_false, stepLookup, xlsxFilter, xlsxNext, wideTab, wideValue,
      List.find?, sqlEq, hza, Bool.and_false, xlsxOpen, zero_add, wrap64_one]
    by_cases h3 : "AAA" = zCol (c - 1)
    · simp [h3, hza, ofVal]
    · simp [h3, hza]

set_option maxRecDepth 1000000 in
/-- C3 (failing input). A worksheet with the cells ZA1 = x and AAA1 = y: the
schema query declares 677 spreadsheet columns.  The spreadsheet column with
zero-based index 676 is ZA, whose cell in row 1 holds x; with the cursor on
row 1, `xlsxColumn` for the declared column 677 returns y, the cell of
column AAA. -/
theorem column_677_reads_AAA :
    (xlsxConnect 677 wideValue 0).map (fun c => (c.names.length, c.tab)) =
      some (677, wideTab) ∧
    columnLetterOf 676 = "ZA" ∧
    cellAt wideValue 1 (columnLetterOf 676) = .text "x" ∧
    xlsxRowid (xlsxFilter wideTab xlsxOpen).2 = 1 ∧
    (xlsxColumn (xlsxFilter wideTab xlsxOpen).1 (xlsxFilter wideTab xlsxOpen).2 677).result =
      .text "y" := by
  decide
/-! ## The declared columns -/

theorem cteRun_reaches (m : Nat) (hm : m < 17576) (d : Nat) :
    ∀ (fuel j : Nat), j + d = m → d < fuel →
      cteRun (some (zCol m)) fuel (j + 1, zCol j) =
        ((List.range' j (d + 1)).map (fun k => (k + 1, zCol k)), true) := by
  induction d with
  | zero =>
    intro fuel j hj hf
    obtain ⟨f, rfl⟩ : ∃ f, fuel = f + 1 := ⟨fuel - 1, by omega⟩
    have : j = m := by omega
    subst this
    simp [cteRun, sqlNe]
  | succ d ih =>
    intro fuel j hj hf
    obtain ⟨f, rfl⟩ : ∃ f, fuel = f + 1 := ⟨fuel - 1, by omega⟩
    have hne : zCol j ≠ zCol m := fun h => by
      have := zCol_injective j m (by omega) hm h
      omega
    have hrec := ih f (j + 1) (by omega) (by omega)
    rw [← cteCol_eq_zCol (j + 1)] at hrec
    have hs : sqlNe (zCol j) (some (zCol m)) = true := by simp [sqlNe, hne]
    rw [cteRun]
    simp only [hs, if_true, hrec]
    rw [List.range'_succ j (d + 1)]
    simp [cteCol_eq_zCol]

theorem cteRows_reaches (m fuel : Nat) (hm : m < 17576) (hf : m < fuel) :
    cteRows (some (zCol m)) fuel =
      some ((List.range (m + 1)).map fun k => (k + 1, zCol k)) := by
  have h := cteRun_reaches m hm m fuel 0 (by omega) hf
  have hA : zCol 0 = "A" := by decide
  rw [hA] at h
  simp only [cteRows, zero_add] at h ⊢
  rw [h, List.range_eq_range']
  simp

theorem cteRun_never (mc : String) (h : ∀ i, cteCol i ≠ mc) :
    ∀ (fuel : Nat) (r : Nat × String), r.2 ≠ mc → (cteRun (some mc) fuel r).2 = false := by
  intro fuel
  induction fuel with
  | zero => intro r _; rfl
  | succ f ih =>
    intro r hr
    have hs : sqlNe r.2 (some mc) = true := by simp [sqlNe, hr]
    rw [cteRun]
    simp only [hs, if_true]
    exact ih (r.1 + 1, cteCol r.1) (h r.1)

theorem filter_eq_find_toList {α β : Type} (key : α → β) (p : α → Bool)
    (hp : ∀ v w, p v = true → p w = true → key v = key w) :
    ∀ l : List α, (l.map key).Nodup → l.filter p = (l.find? p).toList := by
  intro l
  induction l with
  | nil => intro _; rfl
  | cons x xs ih =>
    intro hnd
    rw [List.map_cons, List.nodup_cons] at hnd
    by_cases hx : p x = true
    · have hnil : xs.filter p = [] := by
        apply List.filter_eq_nil_iff.mpr
        intro w hw hpw
        exact hnd.1 (hp x w hx hpw ▸ List.mem_map_of_mem key hw)
      simp [List.filter_cons, List.find?_cons, hx, hnil]
    · have hx' : p x = false := by simpa using hx
      simp [List.filter_cons, List.find?_cons, hx', ih hnd.2]

theorem namesOf_eq_headerName (value : List ValueRow) (header_row : Int) (col : String)
    (hpk : pkUnique value = true) :
    namesOf value header_row col = [headerName value header_row col] := by
  have hnd : (value.map fun v => (v.row, v.col)).Nodup := by
    simpa [pkUnique] using hpk
  have hpred : (fun v : ValueRow =>
      decide (v.row = .integer header_row) && decide (v.col = col)) =
      fun v : ValueRow => decide (col = v.col) && sqlEq v.row (.integer header_row) := by
    funext v
    rw [Bool.and_comm]
    cases hv : v.row <;> simp [sqlEq, eq_comm]
  have hfilter := filter_eq_find_toList (fun v : ValueRow => (v.row, v.col))
    (fun v => decide (col = v.col) && sqlEq v.row (.integer header_row))
    (by
      intro v w hv hw
      simp only [Bool.and_eq_true, decide_eq_true_eq, sqlEq_integer_iff] at hv hw
      show (v.row, v.col) = (w.row, w.col)
      rw [hv.2, hw.2, ← hv.1, ← hw.1]) value hnd
  unfold namesOf headerMatches headerName cellAt
  rw [hfilter, hpred]
  cases hfind : value.find?
      (fun v => decide (col = v.col) && sqlEq v.row (.integer header_row)) with
  | none => simp
  | some v => cases hval : v.val <;> simp [ofVal, hval]

/-- The declared columns when the maximum column of the cells is the column
`zCol m` with `m < 17576`, and the primary key of `value` holds: with a budget
above `m` the schema query ends and the names after the leading row column
are exactly `m + 1` names, the `j`-th (from 0) being the text of the header
cell of the column `zCol j` when that cell has a text and the letters `zCol j`
otherwise.  For `m ≤ 675` the letters `zCol j` are the spreadsheet name of
column `j`. -/
theorem schema_names (value : List ValueRow) (header_row : Int) (m fuel : Nat)
    (hm : m < 17576) (hmax : maxColumn value = some (zCol m))
    (hpk : pkUnique value = true) (hf : m < fuel) :
    ∃ c, xlsxConnect fuel value header_row = some c ∧
      c.names = (List.range (m + 1)).map (fun j => headerName value header_row (zCol j)) ∧
      c.names.length = m + 1 ∧
      (m ≤ 675 → c.names =
        (List.range (m + 1)).map fun j => headerName value header_row (columnLetterOf j)) := by
  have hrows := cteRows_reaches m fuel hm hf
  have hnames : columnNames value header_row
      ((List.range (m + 1)).map fun k => (k + 1, zCol k)) =
      (List.range (m + 1)).map (fun j => headerName value header_row (zCol j)) := by
    unfold columnNames
    generalize List.range (m + 1) = l
    induction l with
    | nil => rfl
    | cons a l ih =>
      rw [List.map_cons, List.flatMap_cons, namesOf_eq_headerName value header_row _ hpk,
        List.singleton_append, ih, List.map_cons]
  refine ⟨_, by rw [xlsxConnect, hmax, hrows], hnames, ?_, ?_⟩
  · simp only [hnames, List.length_map, List.length_range]
  · intro hm'
    simp only [hnames]
    apply List.map_congr_left
    intro j hj
    have := List.mem_range.mp hj
    rw [zCol_eq_columnLetterOf j (by omega)]
theorem headerName_wide_zero (col : String) : headerName wideValue 0 col = col := by
  simp [headerName, cellAt, wideValue, List.find?]

/-- C4 (failing input). The sample worksheet gives the names Name, Age with
header row 1 and A, B with header row 0.  For the worksheet with the cells
ZA1 and AAA1 the highest column is AAA, of zero-based index 702, so 703 names
are due; the schema query ends, with any budget above 676, with 677 names, the
last being AAA and none being ZA, the name of column 676.  For a worksheet
whose highest column is ZA the recursion of the schema query never ends. -/
theorem wide_sheet_declares_677_columns :
    ((xlsxConnect 2 sampleValue 1).map (fun c => c.names) = some ["Name", "Age"] ∧
      (xlsxConnect 2 sampleValue 0).map (fun c => c.names) = some ["A", "B"]) ∧
    (maxColumn wideValue = some "AAA" ∧ parseColumnLetter "AAA" = 702) ∧
    (∀ fuel, 676 < fuel → ∃ c, xlsxConnect fuel wideValue 0 = some c ∧
      c.names.length = 677 ∧ c.names[676]? = some "AAA" ∧ "ZA" ∉ c.names) ∧
    columnLetterOf 676 = "ZA" ∧
    (∀ fuel header_row,
      xlsxConnect fuel [⟨"ZA", .integer 1, some "x"⟩] header_row = none) := by
  refine ⟨by decide, by decide, ?_, by decide, ?_⟩
  · intro fuel hf
    obtain ⟨c, hc, hnames, hlen, _⟩ := schema_names wideValue 0 676 fuel (by omega)
      (by decide) (by decide) hf
    simp only [headerName_wide_zero] at hnames
    refine ⟨c, hc, hlen, ?_, ?_⟩
    · rw [hnames, List.getElem?_map, List.getElem?_range (by omega)]
      decide
    · rw [hnames]
      intro hmem
      obtain ⟨j, _, hj⟩ := List.mem_map.mp hmem
      exact zCol_ne_ZA j hj
  · intro fuel header_row
    have hmax : maxColumn [⟨"ZA", .integer 1, some "x"⟩] = some "ZA" := by decide
    have hrun := cteRun_never "ZA" (fun i => by rw [cteCol_eq_zCol]; exact zCol_ne_ZA i)
      fuel (1, "A") (by decide)
    simp [xlsxConnect, hmax, cteRows, hrun]
/-! ## The text `cols` and the declared columns -/

end XlsxVtab
